import Mathlib

/-!
Verification of the column-mapping and normalization subsystem of the
CA CEC equipment module explorer (source file utils/column_mapper.py).

The embedding models:
  - a pandas DataFrame as an ordered list of named columns, each column an
    ordered list of cells, a cell being an optional string (none = null);
  - a Python dict as an ordered association list with unique keys, where
    assignment replaces the value of an existing key in place and appends
    a fresh key at the end (dictSet), and dict.update folds dictSet;
  - the functions STANDARD_COLUMNS, validate_mapping, apply_column_mapping,
    reset_column_mapping, together with the auto-map pass and the per-column
    dropdown assignment embedded from render_column_mapping_interface.
-/

/-- A cell of a table: none models a null value. -/
abbrev Cell := Option String

/-- A pandas DataFrame, modelled as an ordered list of named columns. -/
structure DataFrame where
  cols : List (String × List Cell)
deriving DecidableEq

/-- A column mapping: the Python dict from source column name to
destination (canonical) column name, as an ordered association list. -/
abbrev Mapping := List (String × String)

/-- Keys of an association list, in order (dict key order / df column order). -/
def keysOf {β : Type} (l : List (String × β)) : List String :=
  l.map Prod.fst

/-- Association-list lookup: the value stored at a key, if any
(Python dict indexing / membership). -/
def dictGet {β : Type} : List (String × β) → String → Option β
  | [], _ => none
  | p :: t, k => if p.1 = k then some p.2 else dictGet t k

/-- Association-list assignment, Python-dict style: replace the value of an
existing key in place, otherwise append the new key at the end. -/
def dictSet {β : Type} : List (String × β) → String → β → List (String × β)
  | [], k, v => [(k, v)]
  | p :: t, k, v => if p.1 = k then (k, v) :: t else p :: dictSet t k v

/-- Python dict.update: assign every pair of the second dict, in order,
into the first. -/
def dictUpdate {β : Type} (m a : List (String × β)) : List (String × β) :=
  a.foldl (fun acc p => dictSet acc p.1 p.2) m

/-- The ordered column names of a DataFrame (df.columns). -/
def DataFrame.columns (df : DataFrame) : List String :=
  keysOf df.cols

/-- The row count of a DataFrame: the length of its index, i.e. of its
first column (0 for a freshly created empty frame). -/
def DataFrame.nrows (df : DataFrame) : Nat :=
  match df.cols with
  | [] => 0
  | p :: _ => p.2.length

/-- Column extraction df[name], when the column exists. -/
def DataFrame.getCol (df : DataFrame) (c : String) : Option (List Cell) :=
  dictGet df.cols c

/-- Column assignment df[name] = values: replaces an existing column in
place, otherwise appends the new column on the right. -/
def DataFrame.setCol (df : DataFrame) (c : String) (vals : List Cell) : DataFrame :=
  ⟨dictSet df.cols c vals⟩

/-- Every column holds exactly n values (a well-formed frame with n rows). -/
abbrev DataFrame.WF (df : DataFrame) : Prop :=
  ∀ p ∈ df.cols, p.2.length = df.nrows

/-- STANDARD_COLUMNS: the fixed ordered list of the 12 canonical
destination columns (the Schema Registry). -/
def STANDARD_COLUMNS : List String := [
  "Equipment Category",
  "Manufacturer",
  "Technology Type",
  "Model SKU",
  "Product Model Description",
  "Racking System Name",
  "Power Rating Specification",
  "Module Level Power Electronics",
  "System Configuration",
  "Racking Style",
  "Internal Notes / Memo",
  "Additional Notes"
]

/-- Substring containment on character lists: the needle occurs
contiguously inside the haystack (the Python in operator on strings). -/
def containsSub (needle : List Char) : List Char → Bool
  | [] => needle.isEmpty
  | c :: t => needle.isPrefixOf (c :: t) || containsSub needle t

/-- Python needle in haystack for strings. -/
def strContains (hay needle : String) : Bool :=
  containsSub needle.data hay.data

/-- Python's src_col.lower().replace("_", " "): lower-case the name and
turn every underscore into a space (character-wise, as the pattern is a
single character and lower() leaves the underscore unchanged). -/
def normalizeSourceName (s : String) : String :=
  String.mk (s.data.map (fun c => if c = '_' then ' ' else c.toLower))

/-- Python's dst_col.lower() applied to a canonical column name. -/
def normalizeDestName (s : String) : String :=
  String.mk (s.data.map Char.toLower)

/-- The auto-map match test of the source: bidirectional substring
containment between the normalized source name and the lower-cased
destination name (dst_lower in src_lower or src_lower in dst_lower). -/
def fieldMatches (srcLower : String) (dst : String) : Bool :=
  let dstLower := normalizeDestName dst
  strContains srcLower dstLower || strContains dstLower srcLower

/-- The inner loop of the Auto-Map Columns button: walk the candidate
destinations in registry order; on a name match take the destination if it
is not yet claimed and stop, otherwise keep scanning. -/
def suggestLoop (srcLower : String) (claimed : List String) : List String → Option String
  | [] => none
  | dst :: rest =>
    if fieldMatches srcLower dst then
      if claimed.contains dst then suggestLoop srcLower claimed rest
      else some dst
    else suggestLoop srcLower claimed rest

/-- The Field Matcher: suggestion for one source column name, given the
set of destinations already claimed during the current auto-map pass.
none models the "unmapped" outcome. -/
def suggest (sourceName : String) (claimed : List String) : Option String :=
  suggestLoop (normalizeSourceName sourceName) claimed STANDARD_COLUMNS

/-- The auto_mapping dict built by the Auto-Map Columns button: for each
source column in order, ask the Field Matcher with the destinations the
pass has claimed so far, and record a successful suggestion. -/
def autoMapPass (sourceColumns : List String) : Mapping :=
  sourceColumns.foldl (fun acc src =>
    match suggest src (acc.map Prod.snd) with
    | some dst => dictSet acc src dst
    | none => acc) []

/-- Auto-Map Columns: st.session_state.column_mapping.update(auto_mapping). -/
def auto_map (sourceColumns : List String) (m : Mapping) : Mapping :=
  dictUpdate m (autoMapPass sourceColumns)

/-- The per-column dropdown assignment
st.session_state.column_mapping[col] = selected_dest (the set operation
of the Mapping State). -/
def set_mapping (m : Mapping) (src dst : String) : Mapping :=
  dictSet m src dst

/-- validate_mapping: the destinations claimed so far, the required
columns missing from them (in required order), and overall validity. -/
def validate_mapping (mapping : Mapping)
    (requiredColumns : List String := STANDARD_COLUMNS) : Bool × List String :=
  let mappedDestinations := mapping.map Prod.snd
  let unmappedRequired :=
    requiredColumns.filter (fun col => decide (col ∉ mappedDestinations))
  (unmappedRequired.isEmpty, unmappedRequired)

/-- First phase of apply_column_mapping: copy each mapped source column
(that exists in the source frame) into a fresh frame under its
destination name. -/
def applyStep1 (sourceDf : DataFrame) (mapping : Mapping) : DataFrame :=
  mapping.foldl (fun acc p =>
    match sourceDf.getCol p.1 with
    | some vals => acc.setCol p.2 vals
    | none => acc) ⟨[]⟩

/-- Second phase of apply_column_mapping: add an all-null column, at the
frame's current row count, for every standard column still absent. -/
def fillStandard (df : DataFrame) : DataFrame :=
  STANDARD_COLUMNS.foldl (fun acc c =>
    if c ∈ acc.columns then acc
    else acc.setCol c (List.replicate acc.nrows none)) df

/-- apply_column_mapping: copy mapped columns, null-fill the missing
standard columns, and select the standard columns in registry order. -/
def apply_column_mapping (sourceDf : DataFrame) (mapping : Mapping) : DataFrame :=
  let step2 := fillStandard (applyStep1 sourceDf mapping)
  ⟨STANDARD_COLUMNS.map (fun c => (c, (step2.getCol c).getD []))⟩

/-- The Streamlit session state touched by the mapping workflow. -/
structure SessionState where
  source_df : Option DataFrame
  column_mapping : Mapping
  mapping_complete : Bool
  mapping_validated : Bool
  mapped_df : Option DataFrame

/-- reset_column_mapping: empty the mapping and clear the two derived
flags; nothing else is assigned. -/
def reset_column_mapping (s : SessionState) : SessionState :=
  { s with
    column_mapping := []
    mapping_complete := false
    mapping_validated := false }

section DictLemmas

variable {β : Type}

theorem dictGet_dictSet_self (m : List (String × β)) (k : String) (v : β) :
    dictGet (dictSet m k v) k = some v := by
  induction m with
  | nil => simp [dictSet, dictGet]
  | cons p t ih =>
    by_cases h : p.1 = k
    · simp [dictSet, h, dictGet]
    · simp [dictSet, h, dictGet, ih]

theorem dictGet_dictSet_ne (m : List (String × β)) {j k : String} (v : β)
    (h : j ≠ k) : dictGet (dictSet m j v) k = dictGet m k := by
  induction m with
  | nil => simp [dictSet, dictGet, h]
  | cons p t ih =>
    by_cases hp : p.1 = j
    · simp [dictSet, hp, dictGet, h, Ne.symm h]
    · by_cases hk : p.1 = k
      · simp [dictSet, hp, dictGet, hk, Ne.symm h]
      · simp [dictSet, hp, dictGet, hk, ih]

theorem dictSet_eq_self_of_get {m : List (String × β)} {k : String} {v : β}
    (h : dictGet m k = some v) : dictSet m k v = m := by
  induction m with
  | nil => simp [dictGet] at h
  | cons p t ih =>
    cases p with
    | mk a b =>
      by_cases hp : a = k
      · simp [dictGet, hp] at h
        subst hp
        subst h
        simp [dictSet]
      · simp [dictGet, hp] at h
        simp [dictSet, hp, ih h]

theorem dictSet_ne_nil (m : List (String × β)) (k : String) (v : β) :
    dictSet m k v ≠ [] := by
  cases m with
  | nil => simp [dictSet]
  | cons p t =>
    by_cases hp : p.1 = k <;> simp [dictSet, hp]

theorem keysOf_dictSet (m : List (String × β)) (k : String) (v : β) :
    keysOf (dictSet m k v)
      = if k ∈ keysOf m then keysOf m else keysOf m ++ [k] := by
  induction m with
  | nil => simp [dictSet, keysOf]
  | cons p t ih =>
    by_cases hp : p.1 = k
    · simp [dictSet, hp, keysOf]
    · have hne : ¬ k = p.1 := fun hx => hp hx.symm
      have hstep : keysOf (dictSet (p :: t) k v) = p.1 :: keysOf (dictSet t k v) := by
        simp [dictSet, hp, keysOf]
      have hmemiff : (k ∈ keysOf (p :: t)) ↔ (k ∈ keysOf t) := by
        simp only [keysOf, List.map_cons, List.mem_cons]
        simp [hne]
      by_cases hmem : k ∈ keysOf t
      · rw [hstep, ih, if_pos hmem, if_pos (hmemiff.mpr hmem)]
        simp [keysOf]
      · rw [hstep, ih, if_neg hmem, if_neg (fun hx => hmem (hmemiff.mp hx))]
        simp [keysOf]

theorem mem_keysOf_dictSet {m : List (String × β)} {a k : String} {v : β} :
    a ∈ keysOf (dictSet m k v) ↔ a = k ∨ a ∈ keysOf m := by
  rw [keysOf_dictSet]
  by_cases hmem : k ∈ keysOf m
  · simp only [if_pos hmem]
    constructor
    · exact Or.inr
    · rintro (rfl | h)
      · exact hmem
      · exact h
  · simp [hmem, or_comm]

theorem nodup_keysOf_dictSet {m : List (String × β)} {k : String} {v : β}
    (h : (keysOf m).Nodup) : (keysOf (dictSet m k v)).Nodup := by
  rw [keysOf_dictSet]
  by_cases hmem : k ∈ keysOf m
  · simpa [hmem] using h
  · simp [hmem, List.nodup_append, h]

theorem dictGet_eq_none_of_not_mem {m : List (String × β)} {k : String}
    (h : k ∉ keysOf m) : dictGet m k = none := by
  induction m with
  | nil => simp [dictGet]
  | cons p t ih =>
    have h' : ¬ (k = p.1 ∨ k ∈ keysOf t) := by
      simpa only [keysOf, List.map_cons, List.mem_cons] using h
    push_neg at h'
    have hp : ¬ p.1 = k := fun he => h'.1 he.symm
    simp [dictGet, hp]
    exact ih h'.2

theorem isSome_dictGet_of_mem {m : List (String × β)} {k : String}
    (h : k ∈ keysOf m) : (dictGet m k).isSome := by
  induction m with
  | nil => simp [keysOf] at h
  | cons p t ih =>
    by_cases hp : p.1 = k
    · simp [dictGet, hp]
    · have h' : k = p.1 ∨ k ∈ keysOf t := by
        simpa only [keysOf, List.map_cons, List.mem_cons] using h
      rcases h' with h1 | h1
      · exact absurd h1.symm hp
      · simp [dictGet, hp]
        exact ih h1

theorem dictGet_mem {m : List (String × β)} {k : String} {v : β}
    (h : dictGet m k = some v) : (k, v) ∈ m := by
  induction m with
  | nil => simp [dictGet] at h
  | cons p t ih =>
    cases p with
    | mk a b =>
      by_cases hp : a = k
      · simp [dictGet, hp] at h
        subst hp
        subst h
        exact List.mem_cons_self _ _
      · simp [dictGet, hp] at h
        exact List.mem_cons_of_mem _ (ih h)

end DictLemmas

section UpdateLemmas

variable {β : Type}

theorem dictUpdate_cons (m : List (String × β)) (p : String × β)
    (a : List (String × β)) :
    dictUpdate m (p :: a) = dictUpdate (dictSet m p.1 p.2) a := rfl

theorem dictGet_dictUpdate_not_mem {a : List (String × β)} {k : String}
    (h : k ∉ keysOf a) (m : List (String × β)) :
    dictGet (dictUpdate m a) k = dictGet m k := by
  induction a generalizing m with
  | nil => rfl
  | cons p t ih =>
    have h' : ¬ (k = p.1 ∨ k ∈ keysOf t) := by
      simpa only [keysOf, List.map_cons, List.mem_cons] using h
    push_neg at h'
    rw [dictUpdate_cons, ih h'.2, dictGet_dictSet_ne _ _ (fun he => h'.1 he.symm)]

theorem dictGet_dictUpdate {a : List (String × β)} (ha : (keysOf a).Nodup)
    (m : List (String × β)) (k : String) :
    dictGet (dictUpdate m a) k = (dictGet a k).orElse (fun _ => dictGet m k) := by
  induction a generalizing m with
  | nil => rfl
  | cons p t ih =>
    have ha' : p.1 ∉ keysOf t ∧ (keysOf t).Nodup := by
      simpa only [keysOf, List.map_cons, List.nodup_cons] using ha
    rw [dictUpdate_cons]
    by_cases hk : p.1 = k
    · subst hk
      rw [dictGet_dictUpdate_not_mem ha'.1, dictGet_dictSet_self]
      simp [dictGet, Option.orElse]
    · rw [ih ha'.2]
      have hget : dictGet (p :: t) k = dictGet t k := by simp [dictGet, hk]
      rw [hget]
      cases h2 : dictGet t k with
      | some w => simp [Option.orElse]
      | none => simp [Option.orElse, dictGet_dictSet_ne _ _ hk]

theorem dictUpdate_idem {a : List (String × β)} (ha : (keysOf a).Nodup)
    (m : List (String × β)) :
    dictUpdate (dictUpdate m a) a = dictUpdate m a := by
  induction a generalizing m with
  | nil => rfl
  | cons p t ih =>
    have ha' : p.1 ∉ keysOf t ∧ (keysOf t).Nodup := by
      simpa only [keysOf, List.map_cons, List.nodup_cons] using ha
    rw [dictUpdate_cons, dictUpdate_cons]
    have hget : dictGet (dictUpdate (dictSet m p.1 p.2) t) p.1 = some p.2 := by
      rw [dictGet_dictUpdate_not_mem ha'.1, dictGet_dictSet_self]
    rw [dictSet_eq_self_of_get hget]
    exact ih ha'.2 (dictSet m p.1 p.2)

end UpdateLemmas

theorem nodup_keysOf_autoMapPassAux (cols : List String) (acc : Mapping)
    (h : (keysOf acc).Nodup) :
    (keysOf (cols.foldl (fun acc src =>
      match suggest src (acc.map Prod.snd) with
      | some dst => dictSet acc src dst
      | none => acc) acc)).Nodup := by
  induction cols generalizing acc with
  | nil => exact h
  | cons c t ih =>
    simp only [List.foldl_cons]
    cases hs : suggest c (acc.map Prod.snd) with
    | none => simpa [hs] using ih acc h
    | some dst => simpa [hs] using ih _ (nodup_keysOf_dictSet h)

theorem nodup_keysOf_autoMapPass (cols : List String) :
    (keysOf (autoMapPass cols)).Nodup :=
  nodup_keysOf_autoMapPassAux cols [] (by simp [keysOf])

section FrameLemmas

theorem allLen_dictSet {l : List (String × List Cell)} {n : Nat} {c : String}
    {vals : List Cell} (hl : ∀ p ∈ l, p.2.length = n) (hv : vals.length = n) :
    ∀ p ∈ dictSet l c vals, p.2.length = n := by
  induction l with
  | nil =>
    intro p hp
    simp [dictSet] at hp
    subst hp
    simpa using hv
  | cons q t ih =>
    intro p hp
    by_cases hq : q.1 = c
    · simp only [dictSet, if_pos hq, List.mem_cons] at hp
      rcases hp with rfl | hp
      · simpa using hv
      · exact hl p (List.mem_cons_of_mem _ hp)
    · simp only [dictSet, if_neg hq, List.mem_cons] at hp
      rcases hp with rfl | hp
      · exact hl p (List.mem_cons_self _ _)
      · exact ih (fun r hr => hl r (List.mem_cons_of_mem _ hr)) p hp

theorem nrows_eq_of_allLen {df : DataFrame} {n : Nat}
    (h : ∀ p ∈ df.cols, p.2.length = n) (h0 : df.cols = [] → n = 0) :
    df.nrows = n := by
  cases df with
  | mk cols =>
    cases cols with
    | nil => simpa [DataFrame.nrows] using (h0 rfl).symm
    | cons p t => simpa [DataFrame.nrows] using h p (List.mem_cons_self _ _)

theorem allLen_applyStep1Aux (src : DataFrame) (hwf : src.WF) (m : Mapping)
    (acc : DataFrame) (hacc : ∀ q ∈ acc.cols, q.2.length = src.nrows) :
    ∀ q ∈ (m.foldl (fun acc p =>
      match src.getCol p.1 with
      | some vals => acc.setCol p.2 vals
      | none => acc) acc).cols, q.2.length = src.nrows := by
  induction m generalizing acc with
  | nil => exact hacc
  | cons p t ih =>
    simp only [List.foldl_cons]
    cases hg : src.getCol p.1 with
    | none => simpa [hg] using ih acc hacc
    | some vals =>
      have hmem : (p.1, vals) ∈ src.cols := dictGet_mem hg
      have hlen : vals.length = src.nrows := hwf _ hmem
      simpa [hg] using ih (acc.setCol p.2 vals) (allLen_dictSet hacc hlen)

theorem applyStep1Aux_ne_nil (src : DataFrame) (m : Mapping) (acc : DataFrame)
    (h : acc.cols ≠ []) :
    (m.foldl (fun acc p =>
      match src.getCol p.1 with
      | some vals => acc.setCol p.2 vals
      | none => acc) acc).cols ≠ [] := by
  induction m generalizing acc with
  | nil => exact h
  | cons p t ih =>
    simp only [List.foldl_cons]
    cases hg : src.getCol p.1 with
    | none => simpa [hg] using ih acc h
    | some vals => simpa [hg] using ih (acc.setCol p.2 vals) (dictSet_ne_nil _ _ _)

theorem applyStep1Aux_ne_nil_of_applicable (src : DataFrame) (m : Mapping)
    (acc : DataFrame) (h : ∃ p ∈ m, (src.getCol p.1).isSome) :
    (m.foldl (fun acc p =>
      match src.getCol p.1 with
      | some vals => acc.setCol p.2 vals
      | none => acc) acc).cols ≠ [] := by
  induction m generalizing acc with
  | nil => simp at h
  | cons p t ih =>
    simp only [List.foldl_cons]
    cases hg : src.getCol p.1 with
    | some vals =>
      simpa [hg] using
        applyStep1Aux_ne_nil src t (acc.setCol p.2 vals) (dictSet_ne_nil _ _ _)
    | none =>
      rcases h with ⟨q, hq, hqs⟩
      rcases List.mem_cons.mp hq with rfl | hq
      · rw [hg] at hqs
        simp at hqs
      · simpa [hg] using ih acc ⟨q, hq, hqs⟩

theorem columns_applyStep1Aux_sub (src : DataFrame) (m : Mapping) (acc : DataFrame)
    (a : String)
    (ha : a ∈ (m.foldl (fun acc p =>
      match src.getCol p.1 with
      | some vals => acc.setCol p.2 vals
      | none => acc) acc).columns) :
    a ∈ acc.columns ∨ a ∈ m.map Prod.snd := by
  induction m generalizing acc with
  | nil => exact Or.inl ha
  | cons p t ih =>
    simp only [List.foldl_cons] at ha
    cases hg : src.getCol p.1 with
    | none =>
      rw [hg] at ha
      rcases ih acc ha with h1 | h1
      · exact Or.inl h1
      · exact Or.inr (List.mem_cons_of_mem _ h1)
    | some vals =>
      rw [hg] at ha
      rcases ih (acc.setCol p.2 vals) ha with h1 | h1
      · rcases mem_keysOf_dictSet.mp h1 with rfl | h2
        · exact Or.inr (List.mem_cons_self _ _)
        · exact Or.inl h2
      · exact Or.inr (List.mem_cons_of_mem _ h1)

theorem applyStep1Aux_skip_all (src : DataFrame) (m : Mapping) (acc : DataFrame)
    (h : ∀ p ∈ m, src.getCol p.1 = none) :
    (m.foldl (fun acc p =>
      match src.getCol p.1 with
      | some vals => acc.setCol p.2 vals
      | none => acc) acc) = acc := by
  induction m generalizing acc with
  | nil => rfl
  | cons p t ih =>
    simp only [List.foldl_cons]
    have hg : src.getCol p.1 = none := h p (List.mem_cons_self _ _)
    simpa [hg] using ih acc (fun q hq => h q (List.mem_cons_of_mem _ hq))

end FrameLemmas

section FillLemmas

theorem fill_allLen (l : List String) (acc : DataFrame) (n : Nat)
    (hacc : ∀ q ∈ acc.cols, q.2.length = n) (h0 : acc.cols = [] → n = 0) :
    (∀ q ∈ (l.foldl (fun acc c => if c ∈ acc.columns then acc
        else acc.setCol c (List.replicate acc.nrows none)) acc).cols, q.2.length = n)
    ∧ ((l.foldl (fun acc c => if c ∈ acc.columns then acc
        else acc.setCol c (List.replicate acc.nrows none)) acc).cols = [] → n = 0) := by
  induction l generalizing acc with
  | nil => exact ⟨hacc, h0⟩
  | cons c t ih =>
    simp only [List.foldl_cons]
    by_cases hc : c ∈ acc.columns
    · simpa [hc] using ih acc hacc h0
    · have hn : acc.nrows = n := nrows_eq_of_allLen hacc h0
      have hlen : (List.replicate acc.nrows (none : Cell)).length = n := by simp [hn]
      have hnil : (acc.setCol c (List.replicate acc.nrows none)).cols ≠ [] :=
        dictSet_ne_nil _ _ _
      simpa [hc] using
        ih (acc.setCol c (List.replicate acc.nrows none))
          (allLen_dictSet hacc hlen) (fun hx => absurd hx hnil)

theorem fill_mem_columns_mono (l : List String) (acc : DataFrame) (a : String)
    (h : a ∈ acc.columns) :
    a ∈ (l.foldl (fun acc c => if c ∈ acc.columns then acc
        else acc.setCol c (List.replicate acc.nrows none)) acc).columns := by
  induction l generalizing acc with
  | nil => exact h
  | cons c t ih =>
    simp only [List.foldl_cons]
    by_cases hc : c ∈ acc.columns
    · simpa [hc] using ih acc h
    · simpa [hc] using
        ih (acc.setCol c (List.replicate acc.nrows none))
          (mem_keysOf_dictSet.mpr (Or.inr h))

theorem fill_mem_columns (l : List String) (acc : DataFrame) (a : String)
    (h : a ∈ l) :
    a ∈ (l.foldl (fun acc c => if c ∈ acc.columns then acc
        else acc.setCol c (List.replicate acc.nrows none)) acc).columns := by
  induction l generalizing acc with
  | nil => simp at h
  | cons c t ih =>
    simp only [List.foldl_cons]
    rcases List.mem_cons.mp h with rfl | h1
    · by_cases hc : a ∈ acc.columns
      · simpa [hc] using fill_mem_columns_mono t acc a hc
      · simpa [hc] using
          fill_mem_columns_mono t (acc.setCol a (List.replicate acc.nrows none)) a
            (mem_keysOf_dictSet.mpr (Or.inl rfl))
    · by_cases hc : c ∈ acc.columns
      · simpa [hc] using ih acc h1
      · simpa [hc] using ih (acc.setCol c (List.replicate acc.nrows none)) h1

theorem fill_getCol_not_mem (l : List String) (acc : DataFrame) (f : String)
    (h : f ∉ l) :
    (l.foldl (fun acc c => if c ∈ acc.columns then acc
        else acc.setCol c (List.replicate acc.nrows none)) acc).getCol f
      = acc.getCol f := by
  induction l generalizing acc with
  | nil => rfl
  | cons c t ih =>
    have h' : ¬ (f = c ∨ f ∈ t) := by simpa only [List.mem_cons] using h
    push_neg at h'
    simp only [List.foldl_cons]
    by_cases hc : c ∈ acc.columns
    · simpa [hc] using ih acc h'.2
    · rw [if_neg hc, ih _ h'.2]
      exact dictGet_dictSet_ne _ _ (fun he => h'.1 he.symm)

theorem fill_getCol_missing (l : List String) (acc : DataFrame) (n : Nat)
    (f : String) (hl : l.Nodup) (hf : f ∈ l) (hnotin : f ∉ acc.columns)
    (hacc : ∀ q ∈ acc.cols, q.2.length = n) (h0 : acc.cols = [] → n = 0) :
    (l.foldl (fun acc c => if c ∈ acc.columns then acc
        else acc.setCol c (List.replicate acc.nrows none)) acc).getCol f
      = some (List.replicate n none) := by
  induction l generalizing acc with
  | nil => simp at hf
  | cons c t ih =>
    have hl' : c ∉ t ∧ t.Nodup := by simpa only [List.nodup_cons] using hl
    simp only [List.foldl_cons]
    rcases List.mem_cons.mp hf with rfl | h1
    · rw [if_neg hnotin]
      have hn : acc.nrows = n := nrows_eq_of_allLen hacc h0
      rw [fill_getCol_not_mem t _ f hl'.1]
      show dictGet (dictSet acc.cols f (List.replicate acc.nrows none)) f = _
      rw [dictGet_dictSet_self, hn]
    · have hfc : ¬ c = f := fun he => hl'.1 (he ▸ h1)
      by_cases hc : c ∈ acc.columns
      · simpa [hc] using ih acc hl'.2 h1 hnotin hacc h0
      · have hn : acc.nrows = n := nrows_eq_of_allLen hacc h0
        have hlen : (List.replicate acc.nrows (none : Cell)).length = n := by simp [hn]
        have hnotin' : f ∉ (acc.setCol c (List.replicate acc.nrows none)).columns := by
          intro hmem
          rcases mem_keysOf_dictSet.mp hmem with rfl | h2
          · exact hfc rfl
          · exact hnotin h2
        simpa [hc] using
          ih (acc.setCol c (List.replicate acc.nrows none)) hl'.2 h1 hnotin'
            (allLen_dictSet hacc hlen) (fun hx => absurd hx (dictSet_ne_nil _ _ _))

end FillLemmas

section ApplyLemmas

theorem applyStep1_def (src : DataFrame) (m : Mapping) :
    applyStep1 src m = m.foldl (fun acc p =>
      match src.getCol p.1 with
      | some vals => acc.setCol p.2 vals
      | none => acc) ⟨[]⟩ := rfl

theorem fillStandard_def (df : DataFrame) :
    fillStandard df = STANDARD_COLUMNS.foldl (fun acc c => if c ∈ acc.columns then acc
        else acc.setCol c (List.replicate acc.nrows none)) df := rfl

theorem apply_column_mapping_def (src : DataFrame) (m : Mapping) :
    apply_column_mapping src m
      = DataFrame.mk (STANDARD_COLUMNS.map (fun c =>
          (c, ((fillStandard (applyStep1 src m)).getCol c).getD []))) := rfl

theorem nrows_selection_cons (c : String) (t : List String) (g : String → List Cell) :
    (DataFrame.mk ((c :: t).map (fun x => (x, g x)))).nrows = (g c).length := rfl

theorem STANDARD_COLUMNS_cons :
    STANDARD_COLUMNS = "Equipment Category" :: ["Manufacturer", "Technology Type",
      "Model SKU", "Product Model Description", "Racking System Name",
      "Power Rating Specification", "Module Level Power Electronics",
      "System Configuration", "Racking Style", "Internal Notes / Memo",
      "Additional Notes"] := rfl

theorem columns_selection (l : List String) (g : String → List Cell) :
    (DataFrame.mk (l.map (fun c => (c, g c)))).columns = l := by
  show keysOf (l.map (fun c => (c, g c))) = l
  induction l with
  | nil => rfl
  | cons c t ih =>
    simp only [keysOf, List.map_cons, List.map_map] at ih ⊢
    rw [ih]

theorem getCol_selection (l : List String) (g : String → List Cell) (f : String)
    (hf : f ∈ l) :
    (DataFrame.mk (l.map (fun c => (c, g c)))).getCol f = some (g f) := by
  induction l with
  | nil => simp at hf
  | cons c t ih =>
    by_cases hc : c = f
    · subst hc
      show dictGet ((c, g c) :: t.map (fun c => (c, g c))) c = some (g c)
      simp [dictGet]
    · have h1 : f ∈ t := by
        rcases List.mem_cons.mp hf with rfl | h
        · exact absurd rfl hc
        · exact h
      show dictGet ((c, g c) :: t.map (fun c => (c, g c))) f = some (g f)
      simp only [dictGet, if_neg hc]
      exact ih h1

theorem columns_apply (src : DataFrame) (m : Mapping) :
    (apply_column_mapping src m).columns = STANDARD_COLUMNS := by
  rw [apply_column_mapping_def]
  exact columns_selection STANDARD_COLUMNS _

theorem applicable_of_any {src : DataFrame} {m : Mapping}
    (h : m.any (fun p => src.columns.contains p.1) = true) :
    ∃ p ∈ m, (src.getCol p.1).isSome := by
  obtain ⟨p, hp, hc⟩ := List.any_eq_true.mp h
  exact ⟨p, hp, isSome_dictGet_of_mem (List.elem_iff.mp hc)⟩

theorem inapplicable_of_any_false {src : DataFrame} {m : Mapping}
    (h : m.any (fun p => src.columns.contains p.1) = false) :
    ∀ p ∈ m, src.getCol p.1 = none := by
  intro p hp
  have hc := List.any_eq_false.mp h p hp
  apply dictGet_eq_none_of_not_mem
  intro hmem
  have : src.columns.contains p.1 = true := List.elem_iff.mpr hmem
  rw [this] at hc
  exact hc rfl

theorem nrows_apply_of_allLen (src : DataFrame) (m : Mapping) (n : Nat)
    (hall : ∀ q ∈ (applyStep1 src m).cols, q.2.length = n)
    (h0 : (applyStep1 src m).cols = [] → n = 0) :
    (apply_column_mapping src m).nrows = n := by
  obtain ⟨hall2, _⟩ := fill_allLen STANDARD_COLUMNS (applyStep1 src m) n hall h0
  have hmem : "Equipment Category" ∈ (fillStandard (applyStep1 src m)).columns := by
    rw [fillStandard_def]
    exact fill_mem_columns _ _ _ (by simp [STANDARD_COLUMNS])
  have hsome : ((fillStandard (applyStep1 src m)).getCol "Equipment Category").isSome :=
    isSome_dictGet_of_mem hmem
  obtain ⟨vals, hv⟩ := Option.isSome_iff_exists.mp hsome
  have hlen : vals.length = n := by
    have hmemv : ("Equipment Category", vals) ∈ (fillStandard (applyStep1 src m)).cols :=
      dictGet_mem hv
    rw [fillStandard_def] at hmemv
    exact hall2 _ hmemv
  rw [apply_column_mapping_def, STANDARD_COLUMNS_cons, nrows_selection_cons, hv]
  simpa using hlen

theorem nrows_apply (src : DataFrame) (m : Mapping) (hwf : src.WF) :
    (apply_column_mapping src m).nrows
      = if m.any (fun p => src.columns.contains p.1) = true then src.nrows else 0 := by
  by_cases h : m.any (fun p => src.columns.contains p.1) = true
  · rw [if_pos h]
    apply nrows_apply_of_allLen
    · rw [applyStep1_def]
      exact allLen_applyStep1Aux src hwf m ⟨[]⟩ (by simp)
    · intro hnil
      exfalso
      rw [applyStep1_def] at hnil
      exact applyStep1Aux_ne_nil_of_applicable src m ⟨[]⟩ (applicable_of_any h) hnil
  · rw [if_neg h]
    have hfalse : m.any (fun p => src.columns.contains p.1) = false := by
      cases hx : m.any (fun p => src.columns.contains p.1)
      · rfl
      · exact absurd hx h
    apply nrows_apply_of_allLen
    · rw [applyStep1_def, applyStep1Aux_skip_all src m ⟨[]⟩
        (inapplicable_of_any_false hfalse)]
      simp
    · intro _
      rfl

end ApplyLemmas


section MatcherLemmas

theorem suggestLoop_eq_find (srcLower : String) (claimed : List String)
    (l : List String) :
    suggestLoop srcLower claimed l
      = l.find? (fun dst => fieldMatches srcLower dst && !claimed.contains dst) := by
  induction l with
  | nil => rfl
  | cons dst rest ih =>
    cases hm : fieldMatches srcLower dst with
    | false => simp [suggestLoop, hm, List.find?_cons, ih]
    | true =>
      by_cases hc : dst ∈ claimed
      · simp [suggestLoop, hm, hc, List.find?_cons, ih]
      · simp [suggestLoop, hm, hc, List.find?_cons]

end MatcherLemmas

section ValidateLemmas

theorem validate_snd_def (m : Mapping) :
    (validate_mapping m).2
      = STANDARD_COLUMNS.filter (fun col => decide (col ∉ m.map Prod.snd)) := rfl

theorem validate_fst_def (m : Mapping) :
    (validate_mapping m).1
      = (STANDARD_COLUMNS.filter (fun col => decide (col ∉ m.map Prod.snd))).isEmpty := rfl

theorem validate_isValid_iff (m : Mapping) :
    (validate_mapping m).1 = true ↔ ∀ c ∈ STANDARD_COLUMNS, c ∈ m.map Prod.snd := by
  rw [validate_fst_def, List.isEmpty_iff, List.filter_eq_nil_iff]
  simp

theorem length_filter_split {α : Type} (p : α → Bool) (l : List α) :
    (l.filter p).length + (l.filter (fun a => !(p a))).length = l.length := by
  induction l with
  | nil => rfl
  | cons a t ih =>
    cases hpa : p a <;> simp [List.filter_cons, hpa] <;> omega

theorem length_filter_mem_eq (l d : List String) (hl : l.Nodup) :
    (l.filter (fun c => decide (c ∈ d))).length
      = (d.dedup.filter (fun c => decide (c ∈ l))).length := by
  have h1 : (l.filter (fun c => decide (c ∈ d))).Nodup := hl.filter _
  have h2 : (d.dedup.filter (fun c => decide (c ∈ l))).Nodup :=
    (List.nodup_dedup d).filter _
  have hset : (l.filter (fun c => decide (c ∈ d))).toFinset
      = (d.dedup.filter (fun c => decide (c ∈ l))).toFinset := by
    ext x
    simp only [List.mem_toFinset, List.mem_filter, List.mem_dedup,
      decide_eq_true_eq]
    exact and_comm
  rw [← List.toFinset_card_of_nodup h1, ← List.toFinset_card_of_nodup h2, hset]

theorem validate_unmapped_length (m : Mapping) :
    (validate_mapping m).2.length
      = STANDARD_COLUMNS.length
        - ((m.map Prod.snd).dedup.filter
            (fun c => decide (c ∈ STANDARD_COLUMNS))).length := by
  have hsplit :=
    length_filter_split (fun c => decide (c ∈ m.map Prod.snd)) STANDARD_COLUMNS
  have hmem := length_filter_mem_eq STANDARD_COLUMNS (m.map Prod.snd) (by decide)
  rw [validate_snd_def]
  have hpred : STANDARD_COLUMNS.filter (fun col => decide (col ∉ m.map Prod.snd))
      = STANDARD_COLUMNS.filter
          (fun a => !((fun c => decide (c ∈ m.map Prod.snd)) a)) := by
    simp
  rw [hpred, ← hmem]
  exact Nat.eq_sub_of_add_eq (by rw [Nat.add_comm]; exact hsplit)

theorem filter_eq_single (l : List String) (f : String) (p : String → Bool)
    (hl : l.Nodup) (hf : f ∈ l) (hpf : p f = true)
    (hother : ∀ g ∈ l, p g = true → g = f) :
    l.filter p = [f] := by
  induction l with
  | nil => simp at hf
  | cons c t ih =>
    have hl' : c ∉ t ∧ t.Nodup := by simpa [List.nodup_cons] using hl
    rcases List.mem_cons.mp hf with rfl | h1
    · rw [List.filter_cons_of_pos hpf]
      have hrest : t.filter p = [] := by
        rw [List.filter_eq_nil_iff]
        intro a ha hpa
        exact hl'.1 ((hother a (List.mem_cons_of_mem _ ha) hpa) ▸ ha)
      rw [hrest]
    · have hpc : ¬ p c = true := by
        intro hpc
        apply hl'.1
        rw [hother c (List.mem_cons_self _ _) hpc]
        exact h1
      rw [List.filter_cons_of_neg (by simpa using hpc)]
      exact ih hl'.2 h1 (fun g hg hpg => hother g (List.mem_cons_of_mem _ hg) hpg)

theorem validate_missing_single (m : Mapping) (f : String)
    (hmem : f ∈ STANDARD_COLUMNS) (hmiss : f ∉ m.map Prod.snd)
    (hcov : ∀ g ∈ STANDARD_COLUMNS, g ≠ f → g ∈ m.map Prod.snd) :
    validate_mapping m = (false, [f]) := by
  have h2 : (validate_mapping m).2 = [f] := by
    rw [validate_snd_def]
    apply filter_eq_single _ _ _ (by decide) hmem (by simp [hmiss])
    intro g hg hpg
    by_contra hne
    exact (by simpa using hpg : g ∉ m.map Prod.snd) (hcov g hg hne)
  have h1 : (validate_mapping m).1 = false := by
    rw [validate_fst_def, show STANDARD_COLUMNS.filter
      (fun col => decide (col ∉ m.map Prod.snd)) = [f] from h2]
    rfl
  calc validate_mapping m = ((validate_mapping m).1, (validate_mapping m).2) := rfl
    _ = (false, [f]) := by rw [h1, h2]

end ValidateLemmas

section StaleLemmas

theorem applyStep1Aux_filter (src : DataFrame) (m : Mapping) (acc : DataFrame) :
    (m.foldl (fun acc p =>
      match src.getCol p.1 with
      | some vals => acc.setCol p.2 vals
      | none => acc) acc)
      = ((m.filter (fun p => src.columns.contains p.1)).foldl (fun acc p =>
          match src.getCol p.1 with
          | some vals => acc.setCol p.2 vals
          | none => acc) acc) := by
  induction m generalizing acc with
  | nil => rfl
  | cons p t ih =>
    by_cases hc : src.columns.contains p.1 = true
    · simp only [List.filter_cons, hc, if_true, List.foldl_cons]
      exact ih _
    · have hnone : src.getCol p.1 = none := by
        apply dictGet_eq_none_of_not_mem
        intro hmem
        exact hc (List.elem_iff.mpr hmem)
      simp only [List.filter_cons, hc, if_false, Bool.false_eq_true,
        List.foldl_cons, hnone]
      exact ih acc

theorem apply_missing_col_null (src : DataFrame) (m : Mapping) (f : String)
    (hwf : src.WF) (hmem : f ∈ STANDARD_COLUMNS) (hmiss : f ∉ m.map Prod.snd)
    (happ : ∃ p ∈ m, (src.getCol p.1).isSome) :
    (apply_column_mapping src m).getCol f
      = some (List.replicate src.nrows none) := by
  have hall : ∀ q ∈ (applyStep1 src m).cols, q.2.length = src.nrows := by
    rw [applyStep1_def]
    exact allLen_applyStep1Aux src hwf m ⟨[]⟩ (by simp)
  have hne : (applyStep1 src m).cols ≠ [] := by
    rw [applyStep1_def]
    exact applyStep1Aux_ne_nil_of_applicable src m ⟨[]⟩ happ
  have hnotin : f ∉ (applyStep1 src m).columns := by
    intro hx
    rw [applyStep1_def] at hx
    rcases columns_applyStep1Aux_sub src m ⟨[]⟩ f hx with h1 | h1
    · simp [DataFrame.columns, keysOf] at h1
    · exact hmiss h1
  have hfill : (fillStandard (applyStep1 src m)).getCol f
      = some (List.replicate src.nrows none) := by
    rw [fillStandard_def]
    exact fill_getCol_missing STANDARD_COLUMNS (applyStep1 src m) src.nrows f
      (by decide) hmem hnotin hall (fun hx => absurd hx hne)
  rw [apply_column_mapping_def, getCol_selection STANDARD_COLUMNS _ f hmem, hfill]
  rfl

end StaleLemmas

/-- C1 counterexample: with a non-empty source table and the empty mapping,
apply_column_mapping returns a table with zero rows (the scalar null fill
of an empty frame creates empty columns), not the source row count of 1. -/
theorem C1_counterexample :
    (apply_column_mapping ⟨[("A", [some "x"])]⟩ []).nrows = 0 ∧
    (DataFrame.mk [("A", [some "x"])]).nrows = 1 := by
  constructor <;> decide

/-- C1 (amended): for every well-formed source table and every mapping the
output of apply_column_mapping has exactly the 12 canonical columns in
registry order, and its row count equals the source row count whenever at
least one mapping entry names a column present in the source table; when no
entry applies the output has zero rows. -/
theorem C1_theorem (src : DataFrame) (m : Mapping) (hwf : src.WF) :
    (apply_column_mapping src m).columns = STANDARD_COLUMNS ∧
    (apply_column_mapping src m).nrows
      = if m.any (fun p => src.columns.contains p.1) = true
        then src.nrows else 0 :=
  ⟨columns_apply src m, nrows_apply src m hwf⟩

/-- C1 witness: the shape and row-count statement evaluated on a concrete
two-row table with one applicable mapping entry. -/
theorem C1_witness :
    (DataFrame.mk [("A", [some "x", none])]).WF ∧
    ((apply_column_mapping ⟨[("A", [some "x", none])]⟩
        [("A", "Manufacturer")]).columns = STANDARD_COLUMNS ∧
     (apply_column_mapping ⟨[("A", [some "x", none])]⟩
        [("A", "Manufacturer")]).nrows
       = if ([("A", "Manufacturer")] : Mapping).any
            (fun p => (DataFrame.mk [("A", [some "x", none])]).columns.contains p.1) = true
         then (DataFrame.mk [("A", [some "x", none])]).nrows else 0) :=
  ⟨by decide, C1_theorem ⟨[("A", [some "x", none])]⟩ [("A", "Manufacturer")] (by decide)⟩

/-- C2 counterexample: a pre-existing entry mapping source column
"Manufacturer" to "Additional Notes" is overwritten by the auto-map pass,
which re-suggests for every source column and merges with dict.update. -/
theorem C2_counterexample :
    dictGet (auto_map ["Manufacturer"] [("Manufacturer", "Additional Notes")])
      "Manufacturer" ≠ some "Additional Notes" := by decide

/-- C2 (amended): the auto-map pass is computed from the source columns
alone, ignoring existing entries; merging overwrites the entry of every
source column that receives a suggestion, and preserves exactly the
entries of source columns that receive none. -/
theorem C2_theorem (sourceColumns : List String) (m : Mapping) (src : String) :
    dictGet (auto_map sourceColumns m) src
      = (dictGet (autoMapPass sourceColumns) src).orElse
          (fun _ => dictGet m src) :=
  dictGet_dictUpdate (nodup_keysOf_autoMapPass sourceColumns) m src

/-- C3 counterexample: auto-mapping the columns Mfr, Cat, desc from an
empty mapping does map "Cat": the normalized name "cat" is a substring of
"equipment category", contradicting the claim that containment fails. -/
theorem C3_counterexample :
    dictGet (auto_map ["Mfr", "Cat", "desc"] []) "Cat"
      = some "Equipment Category" := by decide

/-- C3 (amended): on the source columns Mfr, Cat, desc starting from the
empty mapping, auto-map leaves "Mfr" unmapped (no substring containment
with any canonical name) but maps "Cat" to "Equipment Category" and "desc"
to "Product Model Description". -/
theorem C3_theorem :
    auto_map ["Mfr", "Cat", "desc"] []
      = [("Cat", "Equipment Category"), ("desc", "Product Model Description")] ∧
    dictGet (auto_map ["Mfr", "Cat", "desc"] []) "Mfr" = none := by
  constructor <;> decide

/-- C4 counterexample: two sequential set calls from different source
columns targeting "Manufacturer" are both accepted; the mapping afterwards
contains an entry for the second source column, so no rejection with a
duplicate-destination-claim error takes place. -/
theorem C4_counterexample :
    dictGet (set_mapping (set_mapping [] "Mfg Name" "Manufacturer")
      "Maker" "Manufacturer") "Maker" = some "Manufacturer" := by decide

/-- C4 (amended): a set call whose canonical field is already claimed by a
different source column is accepted, not rejected: after the two calls the
first entry is preserved and the second source column also maps to the
same canonical field (the injective invariant is only guarded in the UI's
dropdown filtering, not by the assignment itself). -/
theorem C4_theorem (m : Mapping) (a b f : String) (hab : b ≠ a) :
    dictGet (set_mapping (set_mapping m a f) b f) a = some f ∧
    dictGet (set_mapping (set_mapping m a f) b f) b = some f := by
  constructor
  · show dictGet (dictSet (dictSet m a f) b f) a = some f
    rw [dictGet_dictSet_ne _ _ hab, dictGet_dictSet_self]
  · show dictGet (dictSet (dictSet m a f) b f) b = some f
    rw [dictGet_dictSet_self]

/-- C4 witness: the duplicate-destination behavior evaluated on two
concrete source columns both set to "Manufacturer". -/
theorem C4_witness :
    ("Maker" : String) ≠ "Mfg Name" ∧
    (dictGet (set_mapping (set_mapping [] "Mfg Name" "Manufacturer")
        "Maker" "Manufacturer") "Mfg Name" = some "Manufacturer" ∧
     dictGet (set_mapping (set_mapping [] "Mfg Name" "Manufacturer")
        "Maker" "Manufacturer") "Maker" = some "Manufacturer") :=
  ⟨by decide, C4_theorem [] "Mfg Name" "Maker" "Manufacturer" (by decide)⟩

/-- C5 counterexample: for the mapping sending "source a" to a value that
is not a canonical field, unmapped_required has length 12 while 12 minus
the number of distinct destinations is 11, refuting the length formula as
stated for arbitrary mappings. -/
theorem C5_counterexample :
    (validate_mapping [("source a", "Not A Canonical Field")]).2.length
      ≠ STANDARD_COLUMNS.length
        - (([("source a", "Not A Canonical Field")] : Mapping).map
            Prod.snd).dedup.length := by decide

/-- C5 (amended): validate_mapping is valid iff every canonical field
occurs among the destinations; unmapped_required contains exactly the
canonical fields missing from the destinations, as a sublist of the
registry order; and its length is 12 minus the number of distinct
destinations that are canonical fields. -/
theorem C5_theorem (m : Mapping) :
    ((validate_mapping m).1 = true ↔ ∀ c ∈ STANDARD_COLUMNS, c ∈ m.map Prod.snd) ∧
    (∀ c, c ∈ (validate_mapping m).2
        ↔ (c ∈ STANDARD_COLUMNS ∧ c ∉ m.map Prod.snd)) ∧
    List.Sublist (validate_mapping m).2 STANDARD_COLUMNS ∧
    (validate_mapping m).2.length
      = STANDARD_COLUMNS.length
        - ((m.map Prod.snd).dedup.filter
            (fun c => decide (c ∈ STANDARD_COLUMNS))).length := by
  refine ⟨validate_isValid_iff m, ?_, ?_, validate_unmapped_length m⟩
  · intro c
    rw [validate_snd_def]
    simp [List.mem_filter]
  · rw [validate_snd_def]
    exact List.filter_sublist _

/-- C6: the Field Matcher normalizes the source name (lower-case,
underscores to spaces) and returns the first canonical field in registry
order that both passes bidirectional substring containment against the
lower-cased canonical name and is not already claimed, none ("unmapped")
otherwise; in particular "equipment category" suggests the canonical
"Equipment Category". -/
theorem C6_theorem :
    (∀ sourceName claimed, suggest sourceName claimed
      = STANDARD_COLUMNS.find? (fun dst =>
          fieldMatches (normalizeSourceName sourceName) dst
            && !claimed.contains dst)) ∧
    suggest "equipment category" [] = some "Equipment Category" := by
  constructor
  · intro sourceName claimed
    exact suggestLoop_eq_find _ _ _
  · decide

/-- C7: if exactly one canonical field f is missing from the destinations
of a mapping whose entries all name existing source columns of a
well-formed table, then validate_mapping returns (false, [f]) while
apply_column_mapping still returns a 12-column table in registry order in
which the column f consists entirely of nulls. -/
theorem C7_theorem (src : DataFrame) (m : Mapping) (f : String)
    (hwf : src.WF) (hsrc : ∀ p ∈ m, p.1 ∈ src.columns)
    (hmem : f ∈ STANDARD_COLUMNS) (hmiss : f ∉ m.map Prod.snd)
    (hcov : ∀ g ∈ STANDARD_COLUMNS, g ≠ f → g ∈ m.map Prod.snd) :
    validate_mapping m = (false, [f]) ∧
    (apply_column_mapping src m).columns = STANDARD_COLUMNS ∧
    (apply_column_mapping src m).getCol f
      = some (List.replicate src.nrows none) := by
  refine ⟨validate_missing_single m f hmem hmiss hcov, columns_apply src m, ?_⟩
  have hg : ∃ g, g ∈ STANDARD_COLUMNS ∧ g ≠ f := by
    by_cases hf : f = "Equipment Category"
    · refine ⟨"Manufacturer", by decide, ?_⟩
      rw [hf]
      decide
    · exact ⟨"Equipment Category", by decide, fun he => hf he.symm⟩
  obtain ⟨g, hg1, hg2⟩ := hg
  obtain ⟨p, hp, _⟩ := List.mem_map.mp (hcov g hg1 hg2)
  exact apply_missing_col_null src m f hwf hmem hmiss
    ⟨p, hp, isSome_dictGet_of_mem (hsrc p hp)⟩

/-- C7 witness: an 11-of-12 mapping on a one-row, eleven-column table,
missing only "Additional Notes". -/
theorem C7_witness :
    (DataFrame.mk [("c1", [some "v"]), ("c2", [some "v"]), ("c3", [some "v"]),
      ("c4", [some "v"]), ("c5", [some "v"]), ("c6", [some "v"]),
      ("c7", [some "v"]), ("c8", [some "v"]), ("c9", [some "v"]),
      ("c10", [some "v"]), ("c11", [some "v"])]).WF ∧
    (validate_mapping [("c1", "Equipment Category"), ("c2", "Manufacturer"),
        ("c3", "Technology Type"), ("c4", "Model SKU"),
        ("c5", "Product Model Description"), ("c6", "Racking System Name"),
        ("c7", "Power Rating Specification"),
        ("c8", "Module Level Power Electronics"), ("c9", "System Configuration"),
        ("c10", "Racking Style"), ("c11", "Internal Notes / Memo")]
       = (false, ["Additional Notes"]) ∧
     (apply_column_mapping ⟨[("c1", [some "v"]), ("c2", [some "v"]),
        ("c3", [some "v"]), ("c4", [some "v"]), ("c5", [some "v"]),
        ("c6", [some "v"]), ("c7", [some "v"]), ("c8", [some "v"]),
        ("c9", [some "v"]), ("c10", [some "v"]), ("c11", [some "v"])]⟩
        [("c1", "Equipment Category"), ("c2", "Manufacturer"),
        ("c3", "Technology Type"), ("c4", "Model SKU"),
        ("c5", "Product Model Description"), ("c6", "Racking System Name"),
        ("c7", "Power Rating Specification"),
        ("c8", "Module Level Power Electronics"), ("c9", "System Configuration"),
        ("c10", "Racking Style"), ("c11", "Internal Notes / Memo")]).columns
       = STANDARD_COLUMNS ∧
     (apply_column_mapping ⟨[("c1", [some "v"]), ("c2", [some "v"]),
        ("c3", [some "v"]), ("c4", [some "v"]), ("c5", [some "v"]),
        ("c6", [some "v"]), ("c7", [some "v"]), ("c8", [some "v"]),
        ("c9", [some "v"]), ("c10", [some "v"]), ("c11", [some "v"])]⟩
        [("c1", "Equipment Category"), ("c2", "Manufacturer"),
        ("c3", "Technology Type"), ("c4", "Model SKU"),
        ("c5", "Product Model Description"), ("c6", "Racking System Name"),
        ("c7", "Power Rating Specification"),
        ("c8", "Module Level Power Electronics"), ("c9", "System Configuration"),
        ("c10", "Racking Style"), ("c11", "Internal Notes / Memo")]).getCol
          "Additional Notes"
       = some (List.replicate (DataFrame.mk [("c1", [some "v"]),
          ("c2", [some "v"]), ("c3", [some "v"]), ("c4", [some "v"]),
          ("c5", [some "v"]), ("c6", [some "v"]), ("c7", [some "v"]),
          ("c8", [some "v"]), ("c9", [some "v"]), ("c10", [some "v"]),
          ("c11", [some "v"])]).nrows none)) :=
  ⟨by decide, C7_theorem _ _ "Additional Notes"
    (by decide) (by decide) (by decide) (by decide) (by decide)⟩

/-- C8: auto-map is idempotent: the pass is a pure function of the source
columns, so updating the mapping with it a second time changes nothing. -/
theorem C8_theorem (sourceColumns : List String) (m : Mapping) :
    auto_map sourceColumns (auto_map sourceColumns m)
      = auto_map sourceColumns m :=
  dictUpdate_idem (nodup_keysOf_autoMapPass sourceColumns) m

/-- C9 counterexample: applying a mapping whose only entry names a source
column absent from the table does not fail: it returns the same ordinary
12-column table as the empty mapping, silently ignoring the stale entry. -/
theorem C9_counterexample :
    apply_column_mapping ⟨[("A", [some "x"])]⟩ [("ghost", "Manufacturer")]
      = apply_column_mapping ⟨[("A", [some "x"])]⟩ [] := by decide

/-- C9 (amended): apply_column_mapping never fails fast on entries whose
source column is absent: such entries are silently skipped (the result
equals applying the mapping restricted to entries with present source
columns) and a 12-column canonical table is still produced. -/
theorem C9_theorem (src : DataFrame) (m : Mapping) :
    apply_column_mapping src m
      = apply_column_mapping src
          (m.filter (fun p => src.columns.contains p.1)) ∧
    (apply_column_mapping src m).columns = STANDARD_COLUMNS := by
  constructor
  · rw [apply_column_mapping_def, apply_column_mapping_def]
    have h : applyStep1 src m
        = applyStep1 src (m.filter (fun p => src.columns.contains p.1)) := by
      rw [applyStep1_def, applyStep1_def]
      exact applyStep1Aux_filter src m ⟨[]⟩
    rw [h]
  · exact columns_apply src m

/-- C10: reset_column_mapping empties the mapping, clears the two derived
flags, and leaves the stored source table (and the mapped table) of the
session untouched. -/
theorem C10_theorem (s : SessionState) :
    (reset_column_mapping s).source_df = s.source_df ∧
    (reset_column_mapping s).mapped_df = s.mapped_df ∧
    (reset_column_mapping s).column_mapping = [] ∧
    (reset_column_mapping s).mapping_complete = false ∧
    (reset_column_mapping s).mapping_validated = false :=
  ⟨rfl, rfl, rfl, rfl, rfl⟩
